import Mathlib

/-!
Verification of the ergomap library (src/lib.rs): an `ErgoMap<T, S>` wrapping
the std `HashMap<Id<T>, T>`, where `Id<T>` is a 16-byte raw key plus a phantom
type tag, and `Key` is the enum of raw-key derivation strategies.

Embedding conventions:
- a raw key (`RawKey = [u8; 16]` in the source) is a `List Nat` of byte values;
- `thread_rng().gen()` is made explicit: every operation that may draw random
  bytes takes the drawn bytes as an extra argument (`draw` for a single draw,
  a `List RawKey` stream for the retry loop of `Id::new_for`, where an
  exhausted stream models a non-terminating retry loop);
- the backing `HashMap` is an association list; `hmInsert`/`hmRemove`/`findVal`
  mirror the observable semantics of `HashMap::insert` / `remove` / `get`;
- Rust strings are embedded as their UTF-8 byte sequences (`List Nat`), which
  is exactly the view `Id::new` takes of them (`Vec<u8>`);
- `&mut T` visitors (`for_one_mut`) are embedded as functions `T → T × R`:
  the updated value plus the returned result.
-/

set_option autoImplicit false

namespace Ergomap

/-- Raw 16-byte key underlying an `Id` (`type RawKey = [u8; 16]` in the source);
bytes are `Nat` values. -/
abbrev RawKey := List Nat

/-- Big-endian byte encoding of a natural number into `w` bytes, mirroring
`u128::to_be_bytes` when `w = 16` and the number is below `2 ^ 128`. -/
def beBytes : Nat → Nat → List Nat
  | 0, _ => []
  | w + 1, n => beBytes w (n / 256) ++ [n % 256]

/-- The `Key` enum of the source: the strategies for deriving an `Id`'s raw
bytes. `Value` holds a `u128` (a `Nat` below `2 ^ 128` in every run of the
source), `Array` a 16-byte array, `Str` a Rust `String` viewed as its UTF-8
bytes. `Random` draws fresh bytes from `thread_rng`. -/
inductive Key where
  | Random : Key
  | Value : Nat → Key
  | Array : RawKey → Key
  | Str : List Nat → Key
deriving DecidableEq

/-- The opaque handle type `Id<T>`: a raw key plus a phantom type tag.
Equality and hashing are defined purely over `key` in the source
(`impl PartialEq for Id`), which is exactly what the derived
decidable equality gives here, the phantom field having no data. -/
structure Id (T : Type) where
  key : RawKey

instance {T : Type} : DecidableEq (Id T) := fun a b =>
  decidable_of_iff (a.key = b.key) (by cases a; cases b; simp)

/-- Raw bytes derived from a `Key`, mirroring the `match` in `Id::new`.
`draw` is the oracle for the bytes `thread_rng().gen()` returns in the
`Key::Random` arm; the other arms ignore it. The `Key::Str` arm pushes
`0x00` while the byte vector is shorter than 16 and then keeps the first
16 bytes (`split_array_ref`). -/
def rawOfKey (k : Key) (draw : RawKey) : RawKey :=
  match k with
  | .Random => draw
  | .Value n => beBytes 16 n
  | .Array a => a
  | .Str s => (s ++ List.replicate (16 - s.length) 0).take 16

/-- The private constructor `Id::new`, with the random oracle explicit. -/
def Id.new {T : Type} (k : Key) (draw : RawKey) : Id T :=
  ⟨rawOfKey k draw⟩

/-- Lookup in the backing association list: the observable semantics of
`HashMap::get` keyed by `Id` equality. -/
def findVal {T : Type} : List (Id T × T) → Id T → Option T
  | [], _ => none
  | p :: l, i => if p.1 = i then some p.2 else findVal l i

/-- Insertion into the backing association list: the observable semantics of
`HashMap::insert` (the binding of the key is replaced, or added when
absent). -/
def hmInsert {T : Type} : List (Id T × T) → Id T → T → List (Id T × T)
  | [], i, v => [(i, v)]
  | p :: l, i, v => if p.1 = i then (i, v) :: l else p :: hmInsert l i v

/-- Removal from the backing association list: the observable semantics of
`HashMap::remove` (every binding of the key disappears; a well-formed map
has at most one). -/
def hmRemove {T : Type} : List (Id T × T) → Id T → List (Id T × T)
  | [], _ => []
  | p :: l, i => if p.1 = i then hmRemove l i else p :: hmRemove l i

/-- The container `ErgoMap<T, S>`: its one field is the backing map. The
hasher parameter `S` only affects bucket layout of the std `HashMap`, not
any observable behavior modelled here. -/
structure ErgoMap (T : Type) where
  map : List (Id T × T)
deriving DecidableEq

/-- `ErgoMap::new`. -/
def ErgoMap.new {T : Type} : ErgoMap T := ⟨[]⟩

/-- `ErgoMap::contains_id` (`HashMap::contains_key`). -/
def ErgoMap.contains_id {T : Type} (m : ErgoMap T) (i : Id T) : Bool :=
  (findVal m.map i).isSome

/-- `ErgoMap::try_get` (`HashMap::get`). -/
def ErgoMap.try_get {T : Type} (m : ErgoMap T) (i : Id T) : Option T :=
  findVal m.map i

/-- `ErgoMap::try_get_mut`: the lookup it performs is `HashMap::get_mut`,
whose hit-or-miss observable is the same as `try_get`; mutation happens
through the returned reference, outside the call itself. -/
def ErgoMap.try_get_mut {T : Type} (m : ErgoMap T) (i : Id T) : Option T :=
  findVal m.map i

/-- `ErgoMap::for_one`: `self.map.get(id).map(f)`. -/
def ErgoMap.for_one {T R : Type} (m : ErgoMap T) (i : Id T) (f : T → R) : Option R :=
  (findVal m.map i).map f

/-- `ErgoMap::for_one_mut`: `self.map.get_mut(id).map(f)`, the `&mut`
visitor embedded as `T → T × R` (updated value, result). Returns the
visitor result (if any) and the container afterwards. -/
def ErgoMap.for_one_mut {T R : Type} (m : ErgoMap T) (i : Id T) (f : T → T × R) :
    Option R × ErgoMap T :=
  match findVal m.map i with
  | none => (none, m)
  | some v => ((f v).2, ⟨hmInsert m.map i (f v).1⟩)

/-- `ErgoMap::remove`: returns the removed value (if any) and the container
afterwards. -/
def ErgoMap.remove {T : Type} (m : ErgoMap T) (i : Id T) : Option T × ErgoMap T :=
  (findVal m.map i, ⟨hmRemove m.map i⟩)

/-- `ErgoMap::insert_as`: builds the `Id` from the given `Key` (with the
random oracle `draw` explicit), rejects when it is already in use,
otherwise stores the value. -/
def ErgoMap.insert_as {T : Type} (m : ErgoMap T) (k : Key) (draw : RawKey) (v : T) :
    Option (Id T) × ErgoMap T :=
  let i : Id T := Id.new k draw
  if m.contains_id i then (none, m)
  else (some i, ⟨hmInsert m.map i v⟩)

/-- `ErgoMap::force_insert_as`: builds the `Id` and stores the value
unconditionally; `HashMap::insert`'s returned prior value is discarded by
the source (`self.map.insert(id, value); id`). -/
def ErgoMap.force_insert_as {T : Type} (m : ErgoMap T) (k : Key) (draw : RawKey) (v : T) :
    Id T × ErgoMap T :=
  let i : Id T := Id.new k draw
  (i, ⟨hmInsert m.map i v⟩)

/-- `Id::new_for`: the collision-avoidance retry loop. `stream` is the
sequence of byte draws `thread_rng` would produce; the loop keeps drawing
while the drawn key is contained in the map. `none` models the loop never
reaching a fresh key within the modelled entropy. -/
def ErgoMap.new_for {T : Type} : List RawKey → ErgoMap T → Option (Id T)
  | [], _ => none
  | r :: rest, m =>
    if m.contains_id (Id.new Key.Random r) then ErgoMap.new_for rest m
    else some (Id.new Key.Random r)

/-- `ErgoMap::insert`: mints a fresh `Id` via `Id::new_for` and stores the
value under it. -/
def ErgoMap.insert {T : Type} (stream : List RawKey) (m : ErgoMap T) (v : T) :
    Option (Id T × ErgoMap T) :=
  match ErgoMap.new_for stream m with
  | none => none
  | some i => some (i, ⟨hmInsert m.map i v⟩)

/-- `ErgoMap::clear` (`HashMap::clear`): removes every entry (the retained
allocation is not observable here). -/
def ErgoMap.clear {T : Type} (_m : ErgoMap T) : ErgoMap T := ⟨[]⟩

/-- The chainable `ErgoMap::with` of the `chainable` feature:
`self.insert(value); self`, discarding the minted `Id`. Named
`with_chained` because `with` is reserved in Lean. Like `insert`, `none`
models the retry loop not finding a fresh key within the modelled
entropy. -/
def ErgoMap.with_chained {T : Type} (stream : List RawKey) (m : ErgoMap T) (v : T) :
    Option (ErgoMap T) :=
  (m.insert stream v).map (fun p => p.2)

/-- The chainable `ErgoMap::without` of the `chainable` feature:
`self.remove(id); self`, discarding the removed value. -/
def ErgoMap.without {T : Type} (m : ErgoMap T) (i : Id T) : ErgoMap T :=
  (m.remove i).2

/-- The chainable `ErgoMap::cleared` of the `chainable` feature:
`self.map.clear(); self`. -/
def ErgoMap.cleared {T : Type} (m : ErgoMap T) : ErgoMap T :=
  m.clear

/-- The `BuildId` trait: a value supplies its own deterministic `Key`. -/
class BuildId (T : Type) where
  get_key : T → Key

/-- `ErgoMap::build_insert`: `self.insert_as(value.get_key(), value)`. -/
def ErgoMap.build_insert {T : Type} [BuildId T] (m : ErgoMap T) (draw : RawKey) (v : T) :
    Option (Id T) × ErgoMap T :=
  m.insert_as (BuildId.get_key v) draw v

/-- `ErgoMap::force_build_insert`: `self.force_insert_as(value.get_key(), value)`. -/
def ErgoMap.force_build_insert {T : Type} [BuildId T] (m : ErgoMap T) (draw : RawKey) (v : T) :
    Id T × ErgoMap T :=
  m.force_insert_as (BuildId.get_key v) draw v

/-- The `impl BuildId for bool` of the source's test module, used as a
concrete instance: `Key::Value(0xDEADBEEF)`. -/
instance : BuildId Bool where
  get_key _ := Key.Value 0xDEADBEEF

/-- Lookup after `HashMap::insert`: the inserted key now maps to the new
value, every other key is untouched. -/
theorem findVal_hmInsert {T : Type} (l : List (Id T × T)) (i j : Id T) (v : T) :
    findVal (hmInsert l i v) j = if j = i then some v else findVal l j := by
  induction l with
  | nil =>
    simp only [hmInsert, findVal]
    by_cases h : j = i
    · simp [h]
    · rw [if_neg (fun hh => h hh.symm), if_neg h]
  | cons p l ih =>
    by_cases h1 : p.1 = i <;> by_cases h2 : j = i <;>
      simp_all [hmInsert, findVal, eq_comm]

/-- Lookup after `HashMap::remove`: the removed key no longer resolves,
every other key is untouched. -/
theorem findVal_hmRemove {T : Type} (l : List (Id T × T)) (i j : Id T) :
    findVal (hmRemove l i) j = if j = i then none else findVal l j := by
  induction l with
  | nil => simp [hmRemove, findVal]
  | cons p l ih =>
    by_cases h1 : p.1 = i <;> by_cases h2 : j = i <;>
      simp_all [hmRemove, findVal, eq_comm]

/-- Membership and lookup agree: `contains_id` is the `isSome` of `try_get`. -/
theorem contains_id_eq_isSome {T : Type} (m : ErgoMap T) (i : Id T) :
    m.contains_id i = (m.try_get i).isSome := rfl

/-- Removing a key that is not bound leaves the backing list untouched. -/
theorem hmRemove_eq_self {T : Type} (l : List (Id T × T)) (i : Id T)
    (h : findVal l i = none) : hmRemove l i = l := by
  induction l with
  | nil => rfl
  | cons p l ih =>
    by_cases h1 : p.1 = i
    · simp [findVal, h1] at h
    · simp only [findVal, if_neg h1] at h
      simp [hmRemove, h1, ih h]

/-- After `insert_as`, the derived `Id` is contained whether the insert was
accepted (it stored the value) or rejected (it was already in use). -/
theorem contains_after_insert_as {T : Type} (m : ErgoMap T) (k : Key) (draw : RawKey) (v : T) :
    ((m.insert_as k draw v).2).contains_id (Id.new k draw) = true := by
  by_cases h : m.contains_id (Id.new k draw) = true
  · simp [ErgoMap.insert_as, h]
  · simp only [Bool.not_eq_true, ErgoMap.contains_id] at h
    simp [ErgoMap.insert_as, ErgoMap.contains_id, h, findVal_hmInsert]

/-- Normal form of the string-derived raw key: the first 16 bytes of the
string followed by zero padding up to 16 bytes. -/
theorem strBytes_norm (s : List Nat) (d : RawKey) :
    rawOfKey (Key.Str s) d = s.take 16 ++ List.replicate (16 - s.length) 0 := by
  simp only [rawOfKey]
  rw [List.take_append_eq_append_take, List.take_replicate, Nat.min_self]

/-- The string-derived raw key depends only on the string's first 16 bytes
(and not on the random oracle). -/
theorem strBytes_eq_take16 (s : List Nat) (d1 d2 : RawKey) :
    rawOfKey (Key.Str s) d1 = rawOfKey (Key.Str (s.take 16)) d2 := by
  rw [strBytes_norm, strBytes_norm, List.take_take, Nat.min_self]
  have hl : (s.take 16).length = min 16 s.length := List.length_take 16 s
  congr 1
  congr 1
  omega

/-- Claim C1: for every map state, key `k` and values `v1`, `v2`: if the raw
key derived from `k` is already in use (mapping to `v1`), `insert_as k v2`
returns the absent-signal `none` and the map is completely unchanged; if the
raw key is not in use, `insert_as k v2` returns the new handle and stores
`v2` under it, leaving every other entry untouched. -/
theorem insert_as_rejects_duplicates {T : Type} (m : ErgoMap T) (k : Key) (draw : RawKey)
    (v1 v2 : T) :
    (m.try_get (Id.new k draw) = some v1 → m.insert_as k draw v2 = (none, m)) ∧
    (m.try_get (Id.new k draw) = none →
      (m.insert_as k draw v2).1 = some (Id.new k draw) ∧
      ∀ j, (m.insert_as k draw v2).2.try_get j =
        if j = Id.new k draw then some v2 else m.try_get j) := by
  constructor
  · intro h
    simp [ErgoMap.insert_as, ErgoMap.contains_id, ErgoMap.try_get] at h ⊢
    simp [h]
  · intro h
    simp only [ErgoMap.try_get] at h
    simp only [ErgoMap.insert_as, ErgoMap.contains_id, h, Option.isSome_none,
      Bool.false_eq_true, if_false]
    exact ⟨by trivial, fun j => findVal_hmInsert m.map (Id.new k draw) j v2⟩

/-- Witness for C1: with raw key `Value 9` bound to `1`, a second `insert_as`
with the same raw key is rejected and mutates nothing; on a fresh map the
same call is accepted and stores the value. -/
theorem insert_as_rejects_duplicates_witness :
    (((ErgoMap.new : ErgoMap Nat).force_insert_as (Key.Value 9) [] 1).2.insert_as
        (Key.Value 9) [] 2 =
      (none, ((ErgoMap.new : ErgoMap Nat).force_insert_as (Key.Value 9) [] 1).2)) ∧
    ((ErgoMap.new : ErgoMap Nat).insert_as (Key.Value 9) [] 2).1 =
      some (Id.new (Key.Value 9) []) :=
  ⟨(insert_as_rejects_duplicates
      ((ErgoMap.new : ErgoMap Nat).force_insert_as (Key.Value 9) [] 1).2
      (Key.Value 9) [] 1 2).1 (by decide),
   ((insert_as_rejects_duplicates (ErgoMap.new : ErgoMap Nat)
      (Key.Value 9) [] 1 2).2 (by decide)).1⟩

/-- Claim C2: `force_insert_as k v2` always succeeds, returning the handle
derived from `k`; a subsequent `try_get` on that handle yields `v2` (any
prior value under that raw key, e.g. one stored by `force_insert_as k v1`,
is replaced), and every other entry is untouched. -/
theorem force_insert_as_overwrites {T : Type} (m : ErgoMap T) (k : Key) (draw : RawKey)
    (v1 v2 : T) :
    (m.force_insert_as k draw v2).1 = Id.new k draw ∧
    (∀ j, (m.force_insert_as k draw v2).2.try_get j =
      if j = Id.new k draw then some v2 else m.try_get j) ∧
    ((m.force_insert_as k draw v1).2.force_insert_as k draw v2).2.try_get
      (Id.new k draw) = some v2 := by
  refine ⟨rfl, fun j => findVal_hmInsert m.map (Id.new k draw) j v2, ?_⟩
  simp [ErgoMap.force_insert_as, ErgoMap.try_get, findVal_hmInsert]

/-- Claim C7: `remove` returns the stored value exactly when the handle is
present; afterwards `contains_id` on that handle is `false` and a second
`remove` is a no-op yielding the absent-signal; every other entry is
untouched; and removing an absent handle leaves the map unchanged. -/
theorem remove_detaches {T : Type} (m : ErgoMap T) (i : Id T) :
    (m.remove i).1 = m.try_get i ∧
    (m.remove i).2.contains_id i = false ∧
    (m.remove i).2.remove i = (none, (m.remove i).2) ∧
    (∀ j, (m.remove i).2.try_get j = if j = i then none else m.try_get j) ∧
    (m.contains_id i = false → (m.remove i).2 = m) := by
  have hgone : findVal (hmRemove m.map i) i = none := by
    simpa using findVal_hmRemove m.map i i
  refine ⟨rfl, ?_, ?_, fun j => findVal_hmRemove m.map i j, ?_⟩
  · simp [ErgoMap.remove, ErgoMap.contains_id, hgone]
  · simp [ErgoMap.remove, hgone, hmRemove_eq_self _ _ hgone]
  · intro h
    have h0 : findVal m.map i = none := by
      cases hv : findVal m.map i with
      | none => rfl
      | some v => simp [ErgoMap.contains_id, hv] at h
    simp [ErgoMap.remove, hmRemove_eq_self _ _ h0]

/-- Witness for C7: removing a stored entry returns it, membership becomes
`false`, a second removal yields the absent-signal, and removing from the
empty map leaves it unchanged. -/
theorem remove_detaches_witness :
    ((((ErgoMap.new : ErgoMap Nat).force_insert_as (Key.Value 9) [] 1).2.remove
        (Id.new (Key.Value 9) [])).1 =
      ((ErgoMap.new : ErgoMap Nat).force_insert_as (Key.Value 9) [] 1).2.try_get
        (Id.new (Key.Value 9) [])) ∧
    ((ErgoMap.new : ErgoMap Nat).remove (Id.new (Key.Value 9) [])).2 = ErgoMap.new :=
  ⟨(remove_detaches ((ErgoMap.new : ErgoMap Nat).force_insert_as (Key.Value 9) [] 1).2
      (Id.new (Key.Value 9) [])).1,
   (remove_detaches (ErgoMap.new : ErgoMap Nat) (Id.new (Key.Value 9) [])).2.2.2.2
     (by decide)⟩

/-- The retry loop `Id::new_for` returns a handle that was not contained,
provided some draw of the random stream is fresh. -/
theorem new_for_fresh {T : Type} (stream : List RawKey) (m : ErgoMap T)
    (h : ∃ r ∈ stream, m.contains_id (Id.new Key.Random r) = false) :
    ∃ i, ErgoMap.new_for stream m = some i ∧ m.contains_id i = false := by
  induction stream with
  | nil => simp at h
  | cons r rest ih =>
    by_cases hc : m.contains_id (Id.new Key.Random r) = true
    · obtain ⟨r0, hr0mem, hr0⟩ := h
      rcases List.mem_cons.mp hr0mem with heq | hmem
      · rw [heq] at hr0; rw [hr0] at hc; cases hc
      · obtain ⟨i, hi, hic⟩ := ih ⟨r0, hmem, hr0⟩
        exact ⟨i, by simp [ErgoMap.new_for, hc, hi], hic⟩
    · refine ⟨Id.new Key.Random r, ?_, by simpa using hc⟩
      simp only [Bool.not_eq_true] at hc
      simp [ErgoMap.new_for, hc]

/-- Claim C3: `insert v` succeeds whenever the random source eventually
draws a key not yet in use (which a 128-bit random source does with
probability 1): it returns a handle whose raw key was not present at the
moment of insertion, stores `v` under it, and leaves every other entry
untouched, so `try_get` on the returned handle yields `v`. -/
theorem insert_mints_fresh_handle {T : Type} (stream : List RawKey) (m : ErgoMap T) (v : T)
    (h : ∃ r ∈ stream, m.contains_id (Id.new Key.Random r) = false) :
    ∃ i m2, m.insert stream v = some (i, m2) ∧
      m.contains_id i = false ∧
      ∀ j, m2.try_get j = if j = i then some v else m.try_get j := by
  obtain ⟨i, hi, hic⟩ := new_for_fresh stream m h
  refine ⟨i, ⟨hmInsert m.map i v⟩, ?_, hic, fun j => findVal_hmInsert m.map i j v⟩
  simp [ErgoMap.insert, hi]

/-- Witness for C3: inserting into the empty map with one fresh draw
succeeds. -/
theorem insert_mints_fresh_handle_witness :
    ∃ i m2, (ErgoMap.new : ErgoMap Bool).insert [List.replicate 16 3] true = some (i, m2) ∧
      (ErgoMap.new : ErgoMap Bool).contains_id i = false ∧
      ∀ j, m2.try_get j =
        if j = i then some true else (ErgoMap.new : ErgoMap Bool).try_get j :=
  insert_mints_fresh_handle [List.replicate 16 3] ErgoMap.new true (by decide)

/-- Counterexample to claim C4: a handle minted by one container resolves in
a different container when the raw keys coincide. Container A (holding
`true`) mints the handle for `Key::Value(5)` (first conjunct); presenting
that foreign handle to the independently built container B (holding `false`
under the same caller-supplied raw key) does not signal absence — it
resolves to B's value, and `for_one` does invoke its visitor on it. -/
theorem foreign_handle_resolves_on_collision :
    ((ErgoMap.new : ErgoMap Bool).insert_as (Key.Value 5) [] true).1 =
      some (Id.new (Key.Value 5) []) ∧
    ((ErgoMap.new : ErgoMap Bool).insert_as (Key.Value 5) [] false).2.try_get
      (Id.new (Key.Value 5) []) = some false ∧
    ((ErgoMap.new : ErgoMap Bool).insert_as (Key.Value 5) [] false).2.for_one
      (Id.new (Key.Value 5) []) (fun _ => (7 : Nat)) = some 7 := by decide

/-- Claim C4 (amended): a stale or foreign handle whose raw key is not
present in the receiving container is a defined no-match condition: the
fallible accessors `try_get`, `try_get_mut`, `for_one`, `for_one_mut` and
`remove` signal absence, mutate nothing, and invoke no visitor (the
`for_one`/`for_one_mut` results do not depend on the visitor). A foreign
handle whose raw key happens to be in use resolves to the receiving
container's entry instead. -/
theorem absent_handle_signals_absence {T R : Type} (m : ErgoMap T) (i : Id T)
    (h : m.contains_id i = false) :
    m.try_get i = none ∧
    m.try_get_mut i = none ∧
    (∀ f : T → R, m.for_one i f = none) ∧
    (∀ f : T → T × R, m.for_one_mut i f = (none, m)) ∧
    m.remove i = (none, m) := by
  have h0 : findVal m.map i = none := by
    cases hv : findVal m.map i with
    | none => rfl
    | some v => simp [ErgoMap.contains_id, hv] at h
  refine ⟨h0, h0, fun f => ?_, fun f => ?_, ?_⟩
  · simp [ErgoMap.for_one, h0]
  · simp [ErgoMap.for_one_mut, h0]
  · simp [ErgoMap.remove, h0, hmRemove_eq_self _ _ h0]

/-- Witness for amended C4: a handle never minted by the empty container
signals absence on every fallible accessor. -/
theorem absent_handle_signals_absence_witness :
    (ErgoMap.new : ErgoMap Bool).try_get ⟨List.replicate 16 1⟩ = none ∧
    (ErgoMap.new : ErgoMap Bool).try_get_mut ⟨List.replicate 16 1⟩ = none ∧
    (∀ f : Bool → Nat, (ErgoMap.new : ErgoMap Bool).for_one ⟨List.replicate 16 1⟩ f = none) ∧
    (∀ f : Bool → Bool × Nat,
      (ErgoMap.new : ErgoMap Bool).for_one_mut ⟨List.replicate 16 1⟩ f = (none, ErgoMap.new)) ∧
    (ErgoMap.new : ErgoMap Bool).remove ⟨List.replicate 16 1⟩ = (none, ErgoMap.new) :=
  absent_handle_signals_absence ErgoMap.new ⟨List.replicate 16 1⟩ (by decide)

/-- Counterexample to claim C5: `force_insert_as` silently discards the
displaced value. Two container states differing exactly in the value about
to be displaced (first conjunct) produce identical complete results — the
same returned handle and the same post-state — under the overwriting call
(second conjunct), so no function of the call's result can recover which
value was displaced: the displaced value is not communicated. -/
theorem force_insert_as_drops_silently :
    ((ErgoMap.new : ErgoMap Nat).force_insert_as (Key.Value 9) [] 1).2 ≠
      ((ErgoMap.new : ErgoMap Nat).force_insert_as (Key.Value 9) [] 2).2 ∧
    (((ErgoMap.new : ErgoMap Nat).force_insert_as (Key.Value 9) [] 1).2.force_insert_as
        (Key.Value 9) [] 3) =
      (((ErgoMap.new : ErgoMap Nat).force_insert_as (Key.Value 9) [] 2).2.force_insert_as
        (Key.Value 9) [] 3) := by decide

/-- Claim C5 (amended): every mutating operation of the container except the
forcing inserts communicates success, the prior value, or an explicit
absence: `insert` communicates success by returning a handle under which
the inserted value is retrievable; `insert_as` and `build_insert` signal a
duplicate key with an explicit absence (`none` exactly when the derived raw
key is in use); `remove` returns the removed prior value or an explicit
absence; `clear` always succeeds, removing every entry; and the chainable
variants (`with`, `without`, `cleared`) are pure sugar returning the
container of the underlying operation. The overwriting `force_insert_as`
and `force_build_insert`, however, return only the handle and silently drop
any displaced value. -/
theorem mutating_results_signal_presence {T : Type} [BuildId T] (m : ErgoMap T) (k : Key)
    (stream : List RawKey) (draw : RawKey) (v : T) (i : Id T) :
    (∀ i2 m2, m.insert stream v = some (i2, m2) → m2.try_get i2 = some v) ∧
    ((m.insert_as k draw v).1 = none ↔ m.contains_id (Id.new k draw) = true) ∧
    ((m.build_insert draw v).1 = none ↔
      m.contains_id (Id.new (BuildId.get_key v) draw) = true) ∧
    (m.remove i).1 = m.try_get i ∧
    (∀ j, (m.clear).try_get j = none) ∧
    m.with_chained stream v = (m.insert stream v).map (fun p => p.2) ∧
    m.without i = (m.remove i).2 ∧
    m.cleared = m.clear ∧
    (m.force_insert_as k draw v).1 = Id.new k draw ∧
    (m.force_build_insert draw v).1 = Id.new (BuildId.get_key v) draw := by
  have hsignal : ∀ k2 : Key, ((m.insert_as k2 draw v).1 = none ↔
      m.contains_id (Id.new k2 draw) = true) := by
    intro k2
    by_cases h : m.contains_id (Id.new k2 draw) = true
    · simp [ErgoMap.insert_as, h]
    · simp only [Bool.not_eq_true] at h
      simp [ErgoMap.insert_as, h]
  refine ⟨?_, hsignal k, hsignal (BuildId.get_key v), rfl, fun j => rfl, rfl, rfl, rfl,
    rfl, rfl⟩
  intro i2 m2 h
  simp only [ErgoMap.insert] at h
  cases hnf : ErgoMap.new_for stream m with
  | none => rw [hnf] at h; cases h
  | some i0 =>
    rw [hnf] at h
    cases h
    simp [ErgoMap.try_get, findVal_hmInsert]

/-- Witness for amended C5: on the empty container, `insert` with one fresh
draw returns a handle under which the value is retrievable, and `remove` of
an unused handle communicates the explicit absence. -/
theorem mutating_results_signal_presence_witness :
    (⟨[(Id.new Key.Random (List.replicate 16 3), true)]⟩ : ErgoMap Bool).try_get
        (Id.new Key.Random (List.replicate 16 3)) = some true ∧
    ((ErgoMap.new : ErgoMap Bool).remove (Id.new (Key.Value 9) [])).1 =
      (ErgoMap.new : ErgoMap Bool).try_get (Id.new (Key.Value 9) []) :=
  ⟨(mutating_results_signal_presence (ErgoMap.new : ErgoMap Bool) (Key.Value 9)
      [List.replicate 16 3] [] true (Id.new (Key.Value 9) [])).1
      (Id.new Key.Random (List.replicate 16 3))
      ⟨[(Id.new Key.Random (List.replicate 16 3), true)]⟩ (by decide),
   (mutating_results_signal_presence (ErgoMap.new : ErgoMap Bool) (Key.Value 9)
      [List.replicate 16 3] [] true (Id.new (Key.Value 9) [])).2.2.2.1⟩

/-- Counterexample to claim C6: no sequential-counter key strategy exists in
the code. Under a container-local monotonically increasing counter, the key
minted by `insert` would be a function of the container state alone; here
the very same state (the empty container) yields different results for
different draws of the random source, so `insert` mints from the random
source, not from any counter. (The amended theorem additionally shows the
`Key` type offers no counter variant at all.) -/
theorem insert_mints_from_random_source :
    ErgoMap.insert [List.replicate 16 255] (ErgoMap.new : ErgoMap Bool) true ≠
      ErgoMap.insert [List.replicate 16 0] ErgoMap.new true := by decide

/-- Claim C6 (amended): the key strategies are exactly `Random`,
caller-supplied 128-bit `Value` (big-endian encoded), caller-supplied
16-byte `Array`, and string-derived `Str` — there is no sequential-counter
variant — and `insert` mints handles solely via the random strategy: with a
fresh first draw it stores the value under exactly that drawn key. -/
theorem key_variants_and_insert_random {T : Type} (m : ErgoMap T) (r : RawKey)
    (rest : List RawKey) (v : T) :
    (∀ k : Key, k = Key.Random ∨ (∃ n, k = Key.Value n) ∨
      (∃ a, k = Key.Array a) ∨ (∃ s, k = Key.Str s)) ∧
    (m.contains_id (Id.new Key.Random r) = false →
      m.insert (r :: rest) v =
        some (Id.new Key.Random r, ⟨hmInsert m.map (Id.new Key.Random r) v⟩)) := by
  constructor
  · intro k
    cases k with
    | Random => exact Or.inl rfl
    | Value n => exact Or.inr (Or.inl ⟨n, rfl⟩)
    | Array a => exact Or.inr (Or.inr (Or.inl ⟨a, rfl⟩))
    | Str s => exact Or.inr (Or.inr (Or.inr ⟨s, rfl⟩))
  · intro h
    simp [ErgoMap.insert, ErgoMap.new_for, h]

/-- Witness for amended C6: on the empty container the first draw is fresh
and `insert` stores the value under exactly that drawn key. -/
theorem key_variants_and_insert_random_witness :
    (∀ k : Key, k = Key.Random ∨ (∃ n, k = Key.Value n) ∨
      (∃ a, k = Key.Array a) ∨ (∃ s, k = Key.Str s)) ∧
    (ErgoMap.new : ErgoMap Bool).insert [List.replicate 16 4] true =
      some (Id.new Key.Random (List.replicate 16 4),
        ⟨hmInsert (ErgoMap.new : ErgoMap Bool).map
          (Id.new Key.Random (List.replicate 16 4)) true⟩) :=
  ⟨(key_variants_and_insert_random (ErgoMap.new : ErgoMap Bool)
      (List.replicate 16 4) [] true).1,
   (key_variants_and_insert_random (ErgoMap.new : ErgoMap Bool)
      (List.replicate 16 4) [] true).2 (by decide)⟩

/-- Claim C8: the string-derived raw key is the string's UTF-8 bytes
truncated to 16 bytes when longer and zero-padded on the right to 16 bytes
when shorter; consequently two strings agreeing on their first 16 bytes, or
differing only by appended trailing zero bytes, derive equal raw keys. -/
theorem str_key_truncates_and_pads :
    (∀ (s : List Nat) (d : RawKey), rawOfKey (Key.Str s) d =
        if 16 < s.length then s.take 16 else s ++ List.replicate (16 - s.length) 0) ∧
    (∀ (s1 s2 : List Nat) (d1 d2 : RawKey), s1.take 16 = s2.take 16 →
        rawOfKey (Key.Str s1) d1 = rawOfKey (Key.Str s2) d2) ∧
    (∀ (s : List Nat) (j : Nat) (d : RawKey),
        rawOfKey (Key.Str (s ++ List.replicate j 0)) d = rawOfKey (Key.Str s) d) := by
  refine ⟨fun s d => ?_, fun s1 s2 d1 d2 h => ?_, fun s j d => ?_⟩
  · by_cases h : 16 < s.length
    · have h0 : 16 - s.length = 0 := by omega
      simp [rawOfKey, h0, h]
    · have hlen : (s ++ List.replicate (16 - s.length) 0).length = 16 := by
        simp only [List.length_append, List.length_replicate]
        omega
      simp [rawOfKey, h, List.take_of_length_le (le_of_eq hlen)]
  · calc rawOfKey (Key.Str s1) d1
        = rawOfKey (Key.Str (s1.take 16)) [] := strBytes_eq_take16 _ _ _
      _ = rawOfKey (Key.Str (s2.take 16)) [] := by rw [h]
      _ = rawOfKey (Key.Str s2) d2 := (strBytes_eq_take16 _ _ _).symm
  · rw [strBytes_norm, strBytes_norm, List.take_append_eq_append_take,
      List.take_replicate, List.length_append, List.length_replicate,
      List.append_assoc, ← List.replicate_add]
    congr 2
    omega

/-- Witness for C8: a 17-byte string and a string sharing its first 16
bytes but ending differently derive the same raw key. -/
theorem str_key_truncates_and_pads_witness :
    rawOfKey (Key.Str (List.replicate 17 1)) [] =
      rawOfKey (Key.Str (List.replicate 16 1 ++ [2])) [] :=
  str_key_truncates_and_pads.2.1 _ _ _ _ (by decide)

/-- Claim C9: `build_insert` coincides — in returned result and in resulting
container state — with `insert_as` applied to the key the value supplies
through the `BuildId` capability, and `force_build_insert` likewise
coincides with `force_insert_as`; in the source both are defined by exactly
this delegation, so the coincidence is definitional. -/
theorem build_insert_delegates {T : Type} [BuildId T] (m : ErgoMap T) (draw : RawKey)
    (v : T) :
    m.build_insert draw v = m.insert_as (BuildId.get_key v) draw v ∧
    m.force_build_insert draw v = m.force_insert_as (BuildId.get_key v) draw v :=
  ⟨rfl, rfl⟩

/-- An `insert_as` whose derived `Id` is already contained returns the
absent-signal. -/
theorem insert_as_none_of_contains {T : Type} (m : ErgoMap T) (k : Key) (draw : RawKey)
    (v : T) (h : m.contains_id (Id.new k draw) = true) :
    (m.insert_as k draw v).1 = none := by
  simp [ErgoMap.insert_as, h]

/-- Claim C10: for every 128-bit integer `n`, `Key::Value(n)` and
`Key::Array(n.to_be_bytes())` derive bit-for-bit identical raw keys; hence
after `insert_as(Key::Value(n), v1)` the call
`insert_as(Key::Array(n.to_be_bytes()), v2)` returns the absent-signal, and
so does `insert_as(Key::Str(s), v2)` for any string whose padded/truncated
UTF-8 bytes equal those 16 bytes. -/
theorem value_array_str_keys_collide (n : Nat) {T : Type} (m : ErgoMap T) (draw : RawKey)
    (v1 v2 : T) (s : List Nat) (_h128 : n < 2 ^ 128) :
    rawOfKey (Key.Value n) draw = rawOfKey (Key.Array (beBytes 16 n)) draw ∧
    ((m.insert_as (Key.Value n) draw v1).2.insert_as
      (Key.Array (beBytes 16 n)) draw v2).1 = none ∧
    (rawOfKey (Key.Str s) draw = beBytes 16 n →
      ((m.insert_as (Key.Value n) draw v1).2.insert_as (Key.Str s) draw v2).1 = none) := by
  refine ⟨rfl, ?_, fun hs => ?_⟩
  · exact insert_as_none_of_contains _ _ _ _
      (contains_after_insert_as m (Key.Value n) draw v1)
  · have hid : (Id.new (Key.Str s) draw : Id T) = Id.new (Key.Value n) draw := by
      simp only [Id.new]
      rw [hs]
      rfl
    apply insert_as_none_of_contains
    rw [hid]
    exact contains_after_insert_as m (Key.Value n) draw v1

/-- Witness for C10: with `n = 0` and the empty string (whose padded bytes
are sixteen zero bytes, equal to the big-endian bytes of 0), both follow-up
inserts are rejected. -/
theorem value_array_str_keys_collide_witness :
    rawOfKey (Key.Value 0) [] = rawOfKey (Key.Array (beBytes 16 0)) [] ∧
    (((ErgoMap.new : ErgoMap Bool).insert_as (Key.Value 0) [] true).2.insert_as
      (Key.Array (beBytes 16 0)) [] false).1 = none ∧
    (((ErgoMap.new : ErgoMap Bool).insert_as (Key.Value 0) [] true).2.insert_as
      (Key.Str []) [] false).1 = none :=
  ⟨(value_array_str_keys_collide 0 ErgoMap.new [] true false [] (by norm_num)).1,
   (value_array_str_keys_collide 0 ErgoMap.new [] true false [] (by norm_num)).2.1,
   (value_array_str_keys_collide 0 (ErgoMap.new : ErgoMap Bool) [] true false []
      (by norm_num)).2.2 (by decide)⟩

end Ergomap
